import Mathlib

/-!
Shallow embedding of the nba-score-winpred feature/sequence/dataset pipeline.

Floating point numbers of the source are modelled as exact rationals (ℚ);
since safe_divide guards every division by zero, no NaN/Inf ever arises in
exact arithmetic, so the NaN/Inf-substitution step of the source
(extract_features.py line 143) is the identity and is not repeated here.
Database reads are modelled by passing the (date, id)-ordered row lists the
SQL queries return; database writes are modelled as the emitted output lists.
-/

namespace NbaPred

/-- One raw per-team box-score record, as parsed from `raw_json`
(`extract_features.py` reads each statistic with `entry.get(key, 0)`,
so an absent key behaves as the value 0, except MIN whose absence behaves
as 48; both behaviours are representable by a plain rational field). -/
structure RawEntry where
  TEAM_ID : Int
  PTS : ℚ
  FGM : ℚ
  FGA : ℚ
  FG3M : ℚ
  FG3A : ℚ
  FTM : ℚ
  FTA : ℚ
  AST : ℚ
  TOV : ℚ
  OREB : ℚ
  DREB : ℚ
  REB : ℚ
  STL : ℚ
  BLK : ℚ
  PF : ℚ
  PLUS_MINUS : ℚ
  MIN : ℚ
  deriving DecidableEq

/-- Function `safe_divide` of `extract_features.py` (the NaN guards are vacuous in ℚ;
the `default` parameter is always left at its default 0.0 by the callers). -/
def safe_divide (numerator denominator : ℚ) : ℚ :=
  if denominator = 0 then 0 else numerator / denominator

/-- One step of the record-matching loop of `extract_features_from_raw_json`
(lines 46-50): `if TEAM_ID == team_id ... elif TEAM_ID == opponent_id ...`. -/
def findStep (team_id opponent_id : Int)
    (acc : Option RawEntry × Option RawEntry) (entry : RawEntry) :
    Option RawEntry × Option RawEntry :=
  if entry.TEAM_ID = team_id then (some entry, acc.2)
  else if entry.TEAM_ID = opponent_id then (acc.1, some entry)
  else acc

/-- The record-matching loop, the last matching record winning each slot. -/
def findEntries (entries : List RawEntry) (team_id opponent_id : Int) :
    Option RawEntry × Option RawEntry :=
  entries.foldl (findStep team_id opponent_id) (none, none)

/-- fg_pct = safe_divide(fgm, fga). -/
def fg_pct (t : RawEntry) : ℚ := safe_divide t.FGM t.FGA

/-- fg3_pct = safe_divide(fg3m, fg3a). -/
def fg3_pct (t : RawEntry) : ℚ := safe_divide t.FG3M t.FG3A

/-- ft_pct = safe_divide(ftm, fta). -/
def ft_pct (t : RawEntry) : ℚ := safe_divide t.FTM t.FTA

/-- efg_pct = safe_divide(fgm + 0.5*fg3m, fga) if fga > 0 else 0.0. -/
def efg_pct (t : RawEntry) : ℚ :=
  if t.FGA > 0 then safe_divide (t.FGM + (1/2) * t.FG3M) t.FGA else 0

/-- ts_pct = safe_divide(pts, 2*(fga + 0.44*fta)) if (fga + 0.44*fta) > 0 else 0.0. -/
def ts_pct (t : RawEntry) : ℚ :=
  if t.FGA + (44/100) * t.FTA > 0
  then safe_divide t.PTS (2 * (t.FGA + (44/100) * t.FTA)) else 0

/-- min_played, after the default: 48 when the source value is 0
(the NaN branch is unrepresentable in exact arithmetic). -/
def min_played (t : RawEntry) : ℚ := if t.MIN = 0 then 48 else t.MIN

/-- team_poss / opp_poss = fga + 0.4*fta - oreb + tov (for either side). -/
def team_poss (t : RawEntry) : ℚ := t.FGA + (2/5) * t.FTA - t.OREB + t.TOV

/-- poss = 0.5 * (team_poss + opp_poss). -/
def poss (t o : RawEntry) : ℚ := (1/2) * (team_poss t + team_poss o)

/-- pace = poss * (48.0 / min_played) if min_played > 0 else 0.0. -/
def pace (t o : RawEntry) : ℚ :=
  if min_played t > 0 then poss t o * (48 / min_played t) else 0

/-- The 20-element base feature vector of `extract_features_from_raw_json`
(lines 113-140), in source order. -/
def feature_vector (t o : RawEntry) : List ℚ :=
  [t.PTS, fg_pct t, fg3_pct t, ft_pct t, efg_pct t, ts_pct t,
   t.FGA, t.FG3A, t.FTA, t.AST, t.TOV,
   t.OREB, t.DREB, t.REB,
   t.STL, t.BLK, t.PF,
   poss t o, pace t o,
   t.PLUS_MINUS]

/-- The dictionary returned by `extract_features_from_raw_json` on success. -/
structure ExtractResult where
  feature_vector : List ℚ
  pts : ℚ
  opp_pts : ℚ
  deriving DecidableEq

/-- Model of `extract_features_from_raw_json` over already-parsed entries: reject
unless exactly two records, find team/opponent records, reject when either
slot stays empty, otherwise build the feature dictionary. -/
def extract_features_from_raw_json (entries : List RawEntry)
    (team_id opponent_id : Int) : Option ExtractResult :=
  if entries.length ≠ 2 then none
  else
    match findEntries entries team_id opponent_id with
    | (some t, some o) => some ⟨feature_vector t o, t.PTS, o.PTS⟩
    | _ => none

/-- One row of the `games` table as read by `extract_all_features`
(dates and game ids are abstracted to naturals; the SQL orders rows by
(game_date, game_id) which is preserved by the list order). -/
structure DBGame where
  game_id : Nat
  game_date : Nat
  season : Nat
  home_team_id : Int
  away_team_id : Int
  home_score : Int
  away_score : Int
  raw : List RawEntry
  deriving DecidableEq

/-- The stored home-team vector of `extract_all_features` (lines 186-203):
base features plus HOME=1 and WIN = 1 iff home_score > away_score. -/
def homeStoredVector (g : DBGame) : Option (List ℚ) :=
  (extract_features_from_raw_json g.raw g.home_team_id g.away_team_id).map
    (fun r => r.feature_vector ++ [1, if g.home_score > g.away_score then 1 else 0])

/-- The stored away-team vector of `extract_all_features` (lines 209-226):
base features plus HOME=0 and WIN = 1 iff away_score > home_score. -/
def awayStoredVector (g : DBGame) : Option (List ℚ) :=
  (extract_features_from_raw_json g.raw g.away_team_id g.home_team_id).map
    (fun r => r.feature_vector ++ [0, if g.away_score > g.home_score then 1 else 0])

/-- An all-zero raw record, base point for concrete inputs. -/
def e0 : RawEntry := ⟨0, 0, 0, 0, 0, 0, 0, 0, 0, 0, 0, 0, 0, 0, 0, 0, 0, 0⟩

/-! Sequence builder (`build_sequences.py`). -/

/-- One row of the `team_features` table as returned by the query of
`build_sequences_for_team`, already ordered by (game_date, game_id).
`stored` is the parse of `feature_vector_json`: `none` models an
unparseable stored string (the `json.loads` failure of line 54). -/
structure FeatRow where
  date : Nat
  gid : Nat
  stored : Option (List ℚ)
  deriving DecidableEq

/-- Default row (used only to state indexed lookups via `getD`). -/
def r0 : FeatRow := ⟨0, 0, none⟩

/-- The parsed stored vector, with an irrelevant default. -/
def storedD (r : FeatRow) : List ℚ := r.stored.getD []

/-- The inner parsing loop over one window (lines 52-60): succeeds with the
list of parsed vectors, fails as soon as one row is unparseable. -/
def parseWindow : List FeatRow → Option (List (List ℚ))
  | [] => some []
  | r :: rs =>
    match r.stored with
    | none => none
    | some v => (parseWindow rs).map (fun s => v :: s)

/-- Check `len(set(feature_lengths)) == 1` (lines 67-68): nonempty and all member
vectors of one window share the arity of the first. -/
def arityOk : List (List ℚ) → Bool
  | [] => false
  | v :: rest => rest.all (fun u => u.length == v.length)

/-- Slice `games[i - window_size + 1 : i + 1]` (line 46). -/
def windowAt (games : List FeatRow) (w i : Nat) : List FeatRow :=
  (games.drop (i + 1 - w)).take w

/-- The outer window loop (lines 44-85) over the remaining window positions:
a parse failure returns immediately (abandoning all later positions), a
length or arity failure skips just the current position; an emitted pair is
(terminal game id, sequence), matching the INSERT of lines 75-83. -/
def seqLoop (games : List FeatRow) (w : Nat) : List Nat → List (Nat × List (List ℚ))
  | [] => []
  | i :: rest =>
    match parseWindow (windowAt games w i) with
    | none => []
    | some s =>
      if s.length = w ∧ arityOk s then
        (((windowAt games w i).getLast?).elim 0 FeatRow.gid, s) :: seqLoop games w rest
      else
        seqLoop games w rest

/-- Model of `build_sequences_for_team`: empty when fewer than `window_size` rows,
otherwise the window loop over positions `window_size - 1 .. len(games) - 1`;
the returned list is the stream of inserted (game_id, sequence) pairs, whose
length is the source's `sequences_created` counter. -/
def build_sequences_for_team (games : List FeatRow) (w : Nat) :
    List (Nat × List (List ℚ)) :=
  if games.length < w then []
  else seqLoop games w ((List.range games.length).drop (w - 1))

/-- One step of the team loop of `build_all_sequences` (lines 114-121):
tally the count into (total_sequences, teams_with_sequences, teams_skipped). -/
def buildAllStep (w : Nat) (acc : Nat × Nat × Nat) (team : List FeatRow) :
    Nat × Nat × Nat :=
  if 0 < (build_sequences_for_team team w).length then
    (acc.1 + (build_sequences_for_team team w).length, acc.2.1 + 1, acc.2.2)
  else (acc.1, acc.2.1, acc.2.2 + 1)

/-- Model of `build_all_sequences` (lines 92-130): fold over the teams tallying
(total_sequences, teams_with_sequences, teams_skipped); each team's row
list is the input for that team. -/
def build_all_sequences (teams : List (List FeatRow)) (w : Nat) :
    Nat × Nat × Nat :=
  teams.foldl (buildAllStep w) (0, 0, 0)

/-- Strict (date, game id) lexicographic order on feature rows. -/
def rowLt (a b : FeatRow) : Prop :=
  a.date < b.date ∨ (a.date = b.date ∧ a.gid < b.gid)

instance : DecidableRel rowLt := fun a b =>
  inferInstanceAs (Decidable (a.date < b.date ∨ (a.date = b.date ∧ a.gid < b.gid)))

/-! Dataset builder (`dataset_builder.py`). -/

/-- One row of the `games` table as read by `build_matchup_samples`
(lines 61-67), already ordered by (game_date, game_id). -/
structure GameRow where
  game_id : Nat
  game_date : Nat
  season : Nat
  home_team_id : Nat
  away_team_id : Nat
  home_score : Int
  away_score : Int
  deriving DecidableEq

/-- All rows of one sequence share one arity (`np.array(..., dtype=float32)`
raises on ragged input, which `load_sequence` turns into `None`). -/
def rectangular : List (List ℚ) → Bool
  | [] => true
  | v :: rest => rest.all (fun u => u.length == v.length)

/-- The `team_sequences` table: rows keyed by (team_id, game_id), the value
being the parse of `sequence_json` (`none` models an unparseable string). -/
abbrev SeqStore := List ((Nat × Nat) × Option (List (List ℚ)))

/-- Model of `load_sequence` (lines 18-49): first matching row, `None` when absent,
unparseable, or ragged (the `np.array` conversion failure). -/
def load_sequence (store : SeqStore) (tid gid : Nat) : Option (List (List ℚ)) :=
  match store.find? (fun e => e.1 == (tid, gid)) with
  | none => none
  | some (_, none) => none
  | some (_, some m) => if rectangular m then some m else none

/-- One matchup training sample (lines 115-126). `winA` is the label. -/
structure MatchupSample where
  game_id : Nat
  game_date : Nat
  season : Nat
  teamA_id : Nat
  teamB_id : Nat
  sequenceA : List (List ℚ)
  sequenceB : List (List ℚ)
  scoreA : Int
  scoreB : Int
  winA : Nat
  deriving DecidableEq

/-- The `skipped_reasons` dictionary (lines 76-80). -/
structure SkipCounters where
  no_home_sequence : Nat
  no_away_sequence : Nat
  invalid_sequence : Nat
  deriving DecidableEq

/-- The body of the game loop of `build_matchup_samples` (lines 82-128) for
one game. A successfully loaded sequence is a rectangular list of rows, so
its numpy shape fails `len(shape) == 2` exactly when the outer list is
empty (shape `(0,)`); line 106 then compares only `shape[0]`, the window
lengths. -/
def matchupStep (store : SeqStore) (acc : List MatchupSample × SkipCounters)
    (g : GameRow) : List MatchupSample × SkipCounters :=
  match load_sequence store g.home_team_id g.game_id with
  | none => (acc.1, { acc.2 with no_home_sequence := acc.2.no_home_sequence + 1 })
  | some hs =>
    match load_sequence store g.away_team_id g.game_id with
    | none => (acc.1, { acc.2 with no_away_sequence := acc.2.no_away_sequence + 1 })
    | some aw =>
      if hs.length = 0 ∨ aw.length = 0 then
        (acc.1, { acc.2 with invalid_sequence := acc.2.invalid_sequence + 1 })
      else if hs.length ≠ aw.length then
        (acc.1, { acc.2 with invalid_sequence := acc.2.invalid_sequence + 1 })
      else
        (acc.1 ++
          [{ game_id := g.game_id, game_date := g.game_date, season := g.season,
             teamA_id := g.home_team_id, teamB_id := g.away_team_id,
             sequenceA := hs, sequenceB := aw,
             scoreA := g.home_score, scoreB := g.away_score,
             winA := if g.home_score > g.away_score then 1 else 0 }],
         acc.2)

/-- The game loop of `build_matchup_samples` as a recursion over the rows. -/
def buildLoop (store : SeqStore) :
    List GameRow → List MatchupSample × SkipCounters →
    List MatchupSample × SkipCounters
  | [], acc => acc
  | g :: rest, acc => buildLoop store rest (matchupStep store acc g)

/-- Model of `build_matchup_samples`: samples in game order plus the skip counters. -/
def build_matchup_samples (games : List GameRow) (store : SeqStore) :
    List MatchupSample × SkipCounters :=
  buildLoop store games ([], ⟨0, 0, 0⟩)

/-! Concrete inputs used by counterexamples and witnesses. -/

/-- A record with team id 5 and zero statistics. -/
def entry5 : RawEntry := { e0 with TEAM_ID := 5 }

/-- A record with team id 1 and zero statistics. -/
def eA : RawEntry := { e0 with TEAM_ID := 1 }

/-- A record with team id 2 and zero statistics. -/
def eB : RawEntry := { e0 with TEAM_ID := 2 }

/-- A record with more field goals made than attempted (FGM=2, FGA=1) and a
negative three-point attempt count (FG3M=1, FG3A=-1). -/
def tBad : RawEntry := { e0 with TEAM_ID := 1, FGM := 2, FGA := 1, FG3M := 1, FG3A := -1 }

/-- A record with one field goal attempt and a negative minutes value. -/
def tNeg : RawEntry := { e0 with TEAM_ID := 1, FGA := 1, MIN := -1 }

/-- A games-table row: game 1, team 1 home beats team 2 away 2-1, raw
records for both sides. -/
def gEx : DBGame := ⟨1, 0, 0, 1, 2, 2, 1, [eA, eB]⟩

/-- The stored home vector of `gEx` (defined, so witnesses can name it). -/
def hvEx : List ℚ := (homeStoredVector gEx).getD []

/-- The stored away vector of `gEx`. -/
def avEx : List ℚ := (awayStoredVector gEx).getD []

/-- Three feature rows for one team, dates 0,1,2, game ids 1,2,3, stored
vectors of arity 1. -/
def games3 : List FeatRow := [⟨0, 1, some [5]⟩, ⟨1, 2, some [6]⟩, ⟨2, 3, some [7]⟩]

/-- A feature row whose stored vector is unparseable. -/
def rBad : FeatRow := ⟨0, 1, none⟩

/-- A parseable feature row, game id 2. -/
def rGood : FeatRow := ⟨0, 2, some [1]⟩

/-- A games-table row for the dataset stage: game 1, home team 10 beats
away team 20 by 100-90. -/
def gameX : GameRow := ⟨1, 0, 0, 10, 20, 100, 90⟩

/-- A sequence store holding, for game 1, a home sequence of window length 1
and arity 2 and an away sequence of window length 1 and arity 1. -/
def storeX : SeqStore := [((10, 1), some [[1, 2]]), ((20, 1), some [[1]])]

/-- The sample `build_matchup_samples [gameX] storeX` emits. -/
def sX : MatchupSample := ⟨1, 0, 0, 10, 20, [[1, 2]], [[1]], 100, 90, 1⟩

/-! General helpers. -/

theorem opt_eq_some_getD {α : Type} (o : Option α) (d : α) (h : o.isSome = true) :
    o = some (o.getD d) := by
  cases o with
  | none => cases h
  | some a => rfl

/-! Extraction-stage helper lemmas. -/

theorem length_feature_vector (t o : RawEntry) : (feature_vector t o).length = 20 := rfl

theorem extract_eq_some_elim {entries : List RawEntry} {tid oid : Int} {r : ExtractResult}
    (h : extract_features_from_raw_json entries tid oid = some r) :
    ∃ t o, findEntries entries tid oid = (some t, some o) ∧
      r = ⟨feature_vector t o, t.PTS, o.PTS⟩ := by
  unfold extract_features_from_raw_json at h
  split at h
  · simp at h
  · split at h
    · next t o heq => exact ⟨t, o, heq, (Option.some.inj h).symm⟩
    · simp at h

theorem getD_append_two (l : List ℚ) (x y : ℚ) (h : l.length = 20) :
    (l ++ [x, y]).getD 20 0 = x ∧ (l ++ [x, y]).getD 21 0 = y := by
  constructor
  · rw [List.getD_eq_getElem?_getD, List.getElem?_append_right (by omega), h]
    rfl
  · rw [List.getD_eq_getElem?_getD, List.getElem?_append_right (by omega), h]
    rfl

theorem safe_divide_mem_Icc {n d : ℚ} (h0 : 0 ≤ n) (h1 : n ≤ d) :
    safe_divide n d ∈ Set.Icc (0 : ℚ) 1 := by
  unfold safe_divide
  split
  · exact Set.mem_Icc.mpr ⟨le_refl 0, zero_le_one⟩
  · next hd =>
    have hdpos : 0 < d := lt_of_le_of_ne (le_trans h0 h1) (Ne.symm hd)
    exact Set.mem_Icc.mpr ⟨div_nonneg h0 hdpos.le, (div_le_one hdpos).mpr h1⟩

theorem ite_one_zero_eq_one (p : Prop) [Decidable p] :
    ((if p then (1 : ℚ) else 0) = 1) ↔ p := by
  by_cases h : p <;> simp [h]

theorem stored_vector_split {g : DBGame} {v : List ℚ}
    (hv : homeStoredVector g = some v ∨ awayStoredVector g = some v) :
    ∃ (l : List ℚ) (x y : ℚ), v = l ++ [x, y] ∧ l.length = 20 := by
  rcases hv with hv | hv <;>
  · obtain ⟨r, hr, hveq⟩ := Option.map_eq_some'.mp hv
    obtain ⟨t, o, -, rfl⟩ := extract_eq_some_elim hr
    exact ⟨feature_vector t o, _, _, hveq.symm, length_feature_vector t o⟩

/-! Claim C10. -/

/-- C10: for every game processed by extract_all_features, the stored
home-team vector ends with HOME = 1.0 and the away-team vector with
HOME = 0.0; the home WIN field is 1.0 iff home score > away score and the
away WIN field is 1.0 iff away score > home score, so equal scores give
both teams WIN = 0.0 and at most one of the two vectors has WIN = 1.0. -/
theorem stored_vectors_home_win_fields (g : DBGame) (hv av : List ℚ)
    (hh : homeStoredVector g = some hv) (ha : awayStoredVector g = some av) :
    hv.getD 20 0 = 1 ∧ av.getD 20 0 = 0 ∧
    (hv.getD 21 0 = 1 ↔ g.home_score > g.away_score) ∧
    (av.getD 21 0 = 1 ↔ g.away_score > g.home_score) ∧
    (g.home_score = g.away_score → hv.getD 21 0 = 0 ∧ av.getD 21 0 = 0) ∧
    ¬(hv.getD 21 0 = 1 ∧ av.getD 21 0 = 1) := by
  obtain ⟨rh, hrh, hveq⟩ := Option.map_eq_some'.mp hh
  obtain ⟨ra, hra, aveq⟩ := Option.map_eq_some'.mp ha
  obtain ⟨t1, o1, -, rfl⟩ := extract_eq_some_elim hrh
  obtain ⟨t2, o2, -, rfl⟩ := extract_eq_some_elim hra
  subst hveq aveq
  obtain ⟨h20, h21⟩ := getD_append_two (feature_vector t1 o1) _ _ (length_feature_vector t1 o1)
  obtain ⟨a20, a21⟩ := getD_append_two (feature_vector t2 o2) _ _ (length_feature_vector t2 o2)
  rw [h20, h21, a20, a21, ite_one_zero_eq_one, ite_one_zero_eq_one]
  refine ⟨rfl, rfl, Iff.rfl, Iff.rfl, ?_, ?_⟩
  · intro heq
    constructor <;> rw [if_neg (by omega)]
  · intro hboth
    omega

theorem stored_vectors_home_win_fields_witness :
    hvEx.getD 20 0 = 1 ∧ avEx.getD 20 0 = 0 ∧
    (hvEx.getD 21 0 = 1 ↔ gEx.home_score > gEx.away_score) ∧
    (avEx.getD 21 0 = 1 ↔ gEx.away_score > gEx.home_score) ∧
    (gEx.home_score = gEx.away_score → hvEx.getD 21 0 = 0 ∧ avEx.getD 21 0 = 0) ∧
    ¬(hvEx.getD 21 0 = 1 ∧ avEx.getD 21 0 = 1) :=
  stored_vectors_home_win_fields gEx hvEx avEx
    (opt_eq_some_getD _ _ rfl) (opt_eq_some_getD _ _ rfl)

/-! Claim C4. -/

/-- C4 (amended): a stored per-team vector has exactly 22 fields (finite by
construction in exact arithmetic); positions 1-5 of the base vector are the
five percentage fields; each such field equals its defining ratio when its
guard denominator is nonzero (for efg/ts: strictly positive) and 0.0 when
the guard fails; and each lies in [0, 1] whenever its numerator is between
0 and its denominator. -/
theorem extract_vector_length_and_pcts (g : DBGame) (v : List ℚ) (t o : RawEntry)
    (hv : homeStoredVector g = some v ∨ awayStoredVector g = some v) :
    v.length = 22 ∧
    (feature_vector t o).getD 1 0 = fg_pct t ∧
    (feature_vector t o).getD 2 0 = fg3_pct t ∧
    (feature_vector t o).getD 3 0 = ft_pct t ∧
    (feature_vector t o).getD 4 0 = efg_pct t ∧
    (feature_vector t o).getD 5 0 = ts_pct t ∧
    (fg_pct t = if t.FGA = 0 then 0 else t.FGM / t.FGA) ∧
    (fg3_pct t = if t.FG3A = 0 then 0 else t.FG3M / t.FG3A) ∧
    (ft_pct t = if t.FTA = 0 then 0 else t.FTM / t.FTA) ∧
    (efg_pct t = if 0 < t.FGA then (t.FGM + (1/2) * t.FG3M) / t.FGA else 0) ∧
    (ts_pct t = if 0 < t.FGA + (44/100) * t.FTA
                then t.PTS / (2 * (t.FGA + (44/100) * t.FTA)) else 0) ∧
    (0 ≤ t.FGM → t.FGM ≤ t.FGA → fg_pct t ∈ Set.Icc (0 : ℚ) 1) ∧
    (0 ≤ t.FG3M → t.FG3M ≤ t.FG3A → fg3_pct t ∈ Set.Icc (0 : ℚ) 1) ∧
    (0 ≤ t.FTM → t.FTM ≤ t.FTA → ft_pct t ∈ Set.Icc (0 : ℚ) 1) ∧
    (0 ≤ t.FGM + (1/2) * t.FG3M → t.FGM + (1/2) * t.FG3M ≤ t.FGA →
      efg_pct t ∈ Set.Icc (0 : ℚ) 1) ∧
    (0 ≤ t.PTS → t.PTS ≤ 2 * (t.FGA + (44/100) * t.FTA) →
      ts_pct t ∈ Set.Icc (0 : ℚ) 1) := by
  obtain ⟨l, x, y, rfl, hl⟩ := stored_vector_split hv
  refine ⟨by simp [hl], rfl, rfl, rfl, rfl, rfl, rfl, rfl, rfl, ?_, ?_, ?_, ?_, ?_, ?_, ?_⟩
  · unfold efg_pct
    split
    · next hpos => unfold safe_divide; rw [if_neg (ne_of_gt hpos)]
    · rfl
  · unfold ts_pct
    split
    · next hpos =>
      unfold safe_divide
      rw [if_neg (ne_of_gt (by linarith))]
    · rfl
  · exact fun h0 h1 => safe_divide_mem_Icc h0 h1
  · exact fun h0 h1 => safe_divide_mem_Icc h0 h1
  · exact fun h0 h1 => safe_divide_mem_Icc h0 h1
  · intro h0 h1
    unfold efg_pct
    split
    · exact safe_divide_mem_Icc h0 h1
    · exact Set.mem_Icc.mpr ⟨le_refl 0, zero_le_one⟩
  · intro h0 h1
    unfold ts_pct
    split
    · exact safe_divide_mem_Icc h0 h1
    · exact Set.mem_Icc.mpr ⟨le_refl 0, zero_le_one⟩

/-- C4 counterexample: at the two-record input [tBad, eB] with side 1 and
opponent 2, extraction succeeds; fg_pct has a positive denominator
(FGA = 1 > 0) yet equals 2, outside [0, 1]; and fg3_pct has a non-positive
denominator (FG3A = -1) yet equals -1, not exactly 0.0. So the claim as
stated is false at this input. -/
theorem extract_pct_range_counterexample :
    extract_features_from_raw_json [tBad, eB] 1 2 =
      some ⟨feature_vector tBad eB, tBad.PTS, eB.PTS⟩ ∧
    (feature_vector tBad eB).getD 1 0 = fg_pct tBad ∧
    (feature_vector tBad eB).getD 2 0 = fg3_pct tBad ∧
    0 < tBad.FGA ∧ fg_pct tBad = 2 ∧ ¬(fg_pct tBad ≤ 1) ∧
    ¬(0 < tBad.FG3A) ∧ fg3_pct tBad = -1 := by
  refine ⟨rfl, rfl, rfl, by norm_num [tBad, e0], ?_, ?_, by norm_num [tBad, e0], ?_⟩ <;>
    norm_num [fg_pct, fg3_pct, safe_divide, tBad, e0]

theorem extract_vector_length_and_pcts_witness :
    hvEx.length = 22 ∧ fg_pct eA ∈ Set.Icc (0 : ℚ) 1 := by
  have h := extract_vector_length_and_pcts gEx hvEx eA eB (Or.inl (opt_eq_some_getD _ _ rfl))
  exact ⟨h.1, h.2.2.2.2.2.2.2.2.2.2.2.1 (by norm_num [eA, e0]) (by norm_num [eA, e0])⟩

/-! Claim C9. -/

/-- C9 (amended): each side's possession estimate is FGA + 0.4·FTA − OREB +
TOV, the game estimate is the average of the two sides, the vector stores
them at positions 17 and 18, and — provided the source minutes value is
nonnegative — pace equals the estimate scaled by 48 divided by minutes
played, minutes being replaced by 48 when the source value is zero
(the NaN case is unrepresentable in exact arithmetic). -/
theorem poss_pace_formulas (t o : RawEntry) (hmin : 0 ≤ t.MIN) :
    team_poss t = t.FGA + (2/5) * t.FTA - t.OREB + t.TOV ∧
    team_poss o = o.FGA + (2/5) * o.FTA - o.OREB + o.TOV ∧
    poss t o = (1/2) * (team_poss t + team_poss o) ∧
    (feature_vector t o).getD 17 0 = poss t o ∧
    (feature_vector t o).getD 18 0 = pace t o ∧
    pace t o = poss t o * (48 / (if t.MIN = 0 then 48 else t.MIN)) := by
  refine ⟨rfl, rfl, rfl, rfl, rfl, ?_⟩
  unfold pace min_played
  by_cases h0 : t.MIN = 0
  · rw [if_pos h0, if_pos (by norm_num : (48 : ℚ) > 0)]
  · rw [if_neg h0, if_pos (lt_of_le_of_ne hmin (Ne.symm h0))]

/-- C9 counterexample: with MIN = -1 (neither zero nor NaN, so the claim's
replacement rule leaves it at -1), the code computes pace = 0.0, while the
claim's formula — the possession estimate scaled by 48 / minutes — gives
-24 ≠ 0 here (the possession estimate is 1/2). -/
theorem pace_negative_minutes_counterexample :
    tNeg.MIN = -1 ∧ pace tNeg eB = 0 ∧
    poss tNeg eB * (48 / tNeg.MIN) = -24 ∧ ((-24 : ℚ) ≠ 0) := by
  refine ⟨rfl, ?_, ?_, by norm_num⟩
  · norm_num [pace, min_played, tNeg, eB, e0]
  · norm_num [poss, team_poss, tNeg, eB, e0]

theorem poss_pace_formulas_witness :
    pace eA eB = poss eA eB * (48 / (if eA.MIN = 0 then 48 else eA.MIN)) :=
  (poss_pace_formulas eA eB (by norm_num [eA, e0])).2.2.2.2.2

/-! Claim C6: soundness and completeness of the record-matching loop. -/

theorem findFold_fst_sound (tid oid : Int) (entries : List RawEntry) :
    ∀ (acc : Option RawEntry × Option RawEntry) (t : RawEntry),
      (entries.foldl (findStep tid oid) acc).1 = some t →
      acc.1 = some t ∨ (t ∈ entries ∧ t.TEAM_ID = tid) := by
  induction entries with
  | nil => exact fun acc t h => Or.inl h
  | cons e es ih =>
    intro acc t h
    rw [List.foldl_cons] at h
    rcases ih (findStep tid oid acc e) t h with h' | h'
    · unfold findStep at h'
      split at h'
      · next heq =>
        obtain rfl : e = t := Option.some.inj h'
        exact Or.inr ⟨List.mem_cons_self e es, heq⟩
      · split at h'
        · exact Or.inl h'
        · exact Or.inl h'
    · exact Or.inr ⟨List.mem_cons_of_mem e h'.1, h'.2⟩

theorem findFold_snd_sound (tid oid : Int) (entries : List RawEntry) :
    ∀ (acc : Option RawEntry × Option RawEntry) (o : RawEntry),
      (entries.foldl (findStep tid oid) acc).2 = some o →
      acc.2 = some o ∨ (o ∈ entries ∧ o.TEAM_ID = oid) := by
  induction entries with
  | nil => exact fun acc o h => Or.inl h
  | cons e es ih =>
    intro acc o h
    rw [List.foldl_cons] at h
    rcases ih (findStep tid oid acc e) o h with h' | h'
    · unfold findStep at h'
      split at h'
      · exact Or.inl h'
      · split at h'
        · next heq =>
          obtain rfl : e = o := Option.some.inj h'
          exact Or.inr ⟨List.mem_cons_self e es, heq⟩
        · exact Or.inl h'
    · exact Or.inr ⟨List.mem_cons_of_mem e h'.1, h'.2⟩

theorem findFold_fst_isSome (tid oid : Int) (entries : List RawEntry) :
    ∀ acc : Option RawEntry × Option RawEntry,
      ((∃ e ∈ entries, e.TEAM_ID = tid) ∨ acc.1.isSome = true) →
      ((entries.foldl (findStep tid oid) acc).1).isSome = true := by
  induction entries with
  | nil =>
    intro acc h
    rcases h with ⟨e, he, -⟩ | h
    · exact absurd he (List.not_mem_nil e)
    · exact h
  | cons e es ih =>
    intro acc h
    rw [List.foldl_cons]
    apply ih
    by_cases hid : e.TEAM_ID = tid
    · right
      simp [findStep, hid]
    · rcases h with ⟨f, hf, hfid⟩ | hs
      · rcases List.mem_cons.mp hf with rfl | hf'
        · exact absurd hfid hid
        · exact Or.inl ⟨f, hf', hfid⟩
      · right
        unfold findStep
        rw [if_neg hid]
        split
        · exact hs
        · exact hs

theorem findFold_snd_isSome (tid oid : Int) (hne : tid ≠ oid) (entries : List RawEntry) :
    ∀ acc : Option RawEntry × Option RawEntry,
      ((∃ e ∈ entries, e.TEAM_ID = oid) ∨ acc.2.isSome = true) →
      ((entries.foldl (findStep tid oid) acc).2).isSome = true := by
  induction entries with
  | nil =>
    intro acc h
    rcases h with ⟨e, he, -⟩ | h
    · exact absurd he (List.not_mem_nil e)
    · exact h
  | cons e es ih =>
    intro acc h
    rw [List.foldl_cons]
    apply ih
    by_cases hid : e.TEAM_ID = oid
    · right
      unfold findStep
      rw [if_neg (by rw [hid]; exact fun hc => hne hc.symm), if_pos hid]
      rfl
    · rcases h with ⟨f, hf, hfid⟩ | hs
      · rcases List.mem_cons.mp hf with rfl | hf'
        · exact absurd hfid hid
        · exact Or.inl ⟨f, hf', hfid⟩
      · right
        unfold findStep
        split
        · exact hs
        · exact hs

/-- C6 (amended): provided the side and opponent identifiers differ,
extraction rejects (returns none, with no partial result) exactly when the
input does not contain two records, or no record matches the side id, or no
record matches the opponent id; in every other case it returns a result.
(The amendment adds the hypothesis side ≠ opponent: when the two requested
ids coincide, the elif chain can never fill the opponent slot and the code
always rejects, against the claim.) -/
theorem extract_rejection_iff (entries : List RawEntry) (tid oid : Int)
    (hne : tid ≠ oid) :
    extract_features_from_raw_json entries tid oid = none ↔
      entries.length ≠ 2 ∨ (∀ e ∈ entries, e.TEAM_ID ≠ tid) ∨
        (∀ e ∈ entries, e.TEAM_ID ≠ oid) := by
  unfold extract_features_from_raw_json
  by_cases hlen : entries.length ≠ 2
  · rw [if_pos hlen]
    exact ⟨fun _ => Or.inl hlen, fun _ => rfl⟩
  · rw [if_neg hlen]
    rcases hfe : findEntries entries tid oid with ⟨fst, snd⟩
    cases fst with
    | some t =>
      cases snd with
      | some o =>
        constructor
        · intro h
          exact absurd h (by simp)
        · intro h
          rcases h with h | h | h
          · exact absurd h hlen
          · obtain ⟨hmem, hid⟩ :=
              (findFold_fst_sound tid oid entries (none, none) t
                (by rw [show entries.foldl (findStep tid oid) (none, none) =
                      findEntries entries tid oid from rfl, hfe])).resolve_left
                (by simp)
            exact absurd hid (h t hmem)
          · obtain ⟨hmem, hid⟩ :=
              (findFold_snd_sound tid oid entries (none, none) o
                (by rw [show entries.foldl (findStep tid oid) (none, none) =
                      findEntries entries tid oid from rfl, hfe])).resolve_left
                (by simp)
            exact absurd hid (h o hmem)
      | none =>
        constructor
        · intro _
          right; right
          intro e hmem
          by_contra hc
          have := findFold_snd_isSome tid oid hne entries (none, none)
            (Or.inl ⟨e, hmem, not_not.mp (by simpa using hc)⟩)
          rw [show entries.foldl (findStep tid oid) (none, none) =
              findEntries entries tid oid from rfl, hfe] at this
          simp at this
        · intro _
          rfl
    | none =>
      constructor
      · intro _
        right; left
        intro e hmem
        by_contra hc
        have := findFold_fst_isSome tid oid entries (none, none)
          (Or.inl ⟨e, hmem, not_not.mp (by simpa using hc)⟩)
        rw [show entries.foldl (findStep tid oid) (none, none) =
            findEntries entries tid oid from rfl, hfe] at this
        simp at this
      · intro _
        cases snd <;> rfl

/-- C6 counterexample: with side id = opponent id = 5 and two records both
carrying team id 5, the input has two records, some record matches the side
id and some record matches the opponent id, yet extraction returns none —
so the claimed acceptance direction is false at this input. -/
theorem extract_equal_ids_counterexample :
    extract_features_from_raw_json [entry5, entry5] 5 5 = none ∧
    ([entry5, entry5] : List RawEntry).length = 2 ∧
    (∃ e ∈ ([entry5, entry5] : List RawEntry), e.TEAM_ID = 5) := by
  refine ⟨rfl, rfl, ⟨entry5, List.mem_cons_self _ _, rfl⟩⟩

theorem extract_rejection_iff_witness :
    (extract_features_from_raw_json [eA, eB] 1 2 = none ↔
      ([eA, eB] : List RawEntry).length ≠ 2 ∨
        (∀ e ∈ ([eA, eB] : List RawEntry), e.TEAM_ID ≠ 1) ∨
        (∀ e ∈ ([eA, eB] : List RawEntry), e.TEAM_ID ≠ 2)) :=
  extract_rejection_iff [eA, eB] 1 2 (by decide)

/-! Sequence-builder helper lemmas. -/

theorem windowAt_length {games : List FeatRow} {w i : Nat}
    (h1 : w ≤ i + 1) (h2 : i < games.length) :
    (windowAt games w i).length = w := by
  unfold windowAt
  rw [List.length_take, List.length_drop]
  omega

theorem windowAt_subset {games : List FeatRow} {w i : Nat} :
    windowAt games w i ⊆ games := by
  intro r hr
  exact List.drop_subset _ _ (List.take_subset _ _ hr)

theorem windowAt_getLast? {games : List FeatRow} {w i : Nat}
    (hw : 0 < w) (h1 : w ≤ i + 1) (h2 : i < games.length) :
    (windowAt games w i).getLast? = some (games.getD i r0) := by
  rw [List.getLast?_eq_getElem?, windowAt_length h1 h2]
  unfold windowAt
  rw [List.getElem?_take, if_pos (by omega : w - 1 < w), List.getElem?_drop,
    show i + 1 - w + (w - 1) = i by omega, List.getElem?_eq_getElem h2,
    List.getD_eq_getElem _ _ h2]

theorem parseWindow_all_some {l : List FeatRow}
    (h : ∀ r ∈ l, r.stored.isSome = true) :
    parseWindow l = some (l.map storedD) := by
  induction l with
  | nil => rfl
  | cons r rs ih =>
    obtain ⟨v, hv⟩ := Option.isSome_iff_exists.mp (h r (List.mem_cons_self r rs))
    unfold parseWindow
    rw [hv, ih (fun x hx => h x (List.mem_cons_of_mem r hx))]
    simp [storedD, hv]

theorem parseWindow_length {l : List FeatRow} {s : List (List ℚ)}
    (h : parseWindow l = some s) : s.length = l.length := by
  induction l generalizing s with
  | nil =>
    obtain rfl := Option.some.inj h
    rfl
  | cons r rs ih =>
    unfold parseWindow at h
    cases hr : r.stored with
    | none => rw [hr] at h; cases h
    | some v =>
      rw [hr] at h
      obtain ⟨s', hs', rfl⟩ := Option.map_eq_some'.mp h
      simp [ih hs']

theorem parseWindow_getLast {l : List FeatRow} {s : List (List ℚ)}
    (h : parseWindow l = some s) {r : FeatRow}
    (hr : l.getLast? = some r) : s.getLast? = r.stored := by
  induction l generalizing s with
  | nil => cases hr
  | cons a as ih =>
    unfold parseWindow at h
    cases ha : a.stored with
    | none => rw [ha] at h; cases h
    | some v =>
      rw [ha] at h
      obtain ⟨s', hs', rfl⟩ := Option.map_eq_some'.mp h
      cases as with
      | nil =>
        obtain rfl := Option.some.inj hs'
        obtain rfl : a = r := Option.some.inj hr
        exact ha.symm
      | cons b bs =>
        have hlen : s'.length = (b :: bs).length := parseWindow_length hs'
        cases s' with
        | nil => simp at hlen
        | cons c cs =>
          rw [List.getLast?_cons_cons] at hr
          rw [List.getLast?_cons_cons]
          exact ih hs' hr

theorem arityOk_of_uniform {s : List (List ℚ)} {k : Nat}
    (hne : s ≠ []) (h : ∀ v ∈ s, v.length = k) : arityOk s = true := by
  cases s with
  | nil => exact absurd rfl hne
  | cons v rest =>
    unfold arityOk
    rw [List.all_eq_true]
    intro u hu
    have hu' : u.length = k := h u (List.mem_cons_of_mem v hu)
    have hv : v.length = k := h v (List.mem_cons_self v rest)
    simp [hu', hv]

theorem mem_drop_range {n m i : Nat} (h : i ∈ (List.range n).drop m) :
    m ≤ i ∧ i < n := by
  obtain ⟨j, hj, heq⟩ := List.mem_iff_getElem.mp h
  have hj' : j < n - m := by
    simpa [List.length_drop, List.length_range] using hj
  rw [List.getElem_drop, List.getElem_range] at heq
  omega

theorem seqLoop_cons_some {games : List FeatRow} {w i : Nat} {L : List Nat}
    {s : List (List ℚ)} (h : parseWindow (windowAt games w i) = some s) :
    seqLoop games w (i :: L) =
      if s.length = w ∧ arityOk s then
        (((windowAt games w i).getLast?).elim 0 FeatRow.gid, s) :: seqLoop games w L
      else seqLoop games w L := by
  conv_lhs => rw [seqLoop]
  rw [h]

theorem seqLoop_cons_none {games : List FeatRow} {w i : Nat} {L : List Nat}
    (h : parseWindow (windowAt games w i) = none) :
    seqLoop games w (i :: L) = [] := by
  conv_lhs => rw [seqLoop]
  rw [h]

theorem seqLoop_eq_map {games : List FeatRow} {w k : Nat} (hw : 0 < w)
    (hp : ∀ r ∈ games, r.stored.map List.length = some k) :
    ∀ L : List Nat, (∀ i ∈ L, w ≤ i + 1 ∧ i < games.length) →
      seqLoop games w L =
        L.map (fun i => ((games.getD i r0).gid, (windowAt games w i).map storedD)) := by
  intro L
  induction L with
  | nil => intro _; rfl
  | cons i L' ih =>
    intro hL
    obtain ⟨hi1, hi2⟩ := hL i (List.mem_cons_self i L')
    have hsome : ∀ r ∈ windowAt games w i, r.stored.isSome = true := by
      intro r hr
      obtain ⟨v, hv, -⟩ := Option.map_eq_some'.mp (hp r (windowAt_subset hr))
      rw [hv]; rfl
    have harity : ∀ v ∈ (windowAt games w i).map storedD, v.length = k := by
      intro v hvmem
      obtain ⟨r, hr, rfl⟩ := List.mem_map.mp hvmem
      obtain ⟨v', hv', hlen⟩ := Option.map_eq_some'.mp (hp r (windowAt_subset hr))
      simp [storedD, hv', hlen]
    have hlen : ((windowAt games w i).map storedD).length = w := by
      rw [List.length_map, windowAt_length hi1 hi2]
    have hne : (windowAt games w i).map storedD ≠ [] := by
      intro hnil
      rw [hnil] at hlen
      simp at hlen
      omega
    rw [seqLoop_cons_some (parseWindow_all_some hsome),
      if_pos ⟨hlen, arityOk_of_uniform hne harity⟩,
      ih (fun j hj => hL j (List.mem_cons_of_mem i hj)), List.map_cons,
      windowAt_getLast? hw hi1 hi2]
    rfl

theorem seqLoop_mem {games : List FeatRow} {w : Nat} :
    ∀ {L : List Nat} {p : Nat × List (List ℚ)}, p ∈ seqLoop games w L →
      ∃ i ∈ L, parseWindow (windowAt games w i) = some p.2 ∧
        p.2.length = w ∧ arityOk p.2 = true ∧
        p.1 = ((windowAt games w i).getLast?).elim 0 FeatRow.gid := by
  intro L
  induction L with
  | nil => intro p hp; cases hp
  | cons i L' ih =>
    intro p hp
    cases hparse : parseWindow (windowAt games w i) with
    | none =>
      rw [seqLoop_cons_none hparse] at hp
      cases hp
    | some s =>
      rw [seqLoop_cons_some hparse] at hp
      by_cases hcond : s.length = w ∧ arityOk s
      · rw [if_pos hcond] at hp
        rcases List.mem_cons.mp hp with rfl | hp'
        · exact ⟨i, List.mem_cons_self i L', hparse, hcond.1, hcond.2, rfl⟩
        · obtain ⟨j, hj, rest⟩ := ih hp'
          exact ⟨j, List.mem_cons_of_mem i hj, rest⟩
      · rw [if_neg hcond] at hp
        obtain ⟨j, hj, rest⟩ := ih hp
        exact ⟨j, List.mem_cons_of_mem i hj, rest⟩

theorem seqLoop_eq_filterMap {games : List FeatRow} {w : Nat}
    (hp : ∀ r ∈ games, r.stored.isSome = true) :
    ∀ L : List Nat, (∀ i ∈ L, w - 1 ≤ i ∧ i < games.length) →
      seqLoop games w L = L.filterMap (fun i =>
        if ((windowAt games w i).map storedD).length = w ∧
            arityOk ((windowAt games w i).map storedD) then
          some ((games.getD i r0).gid, (windowAt games w i).map storedD)
        else none) := by
  intro L
  induction L with
  | nil => intro _; rfl
  | cons i L' ih =>
    intro hL
    obtain ⟨hi1, hi2⟩ := hL i (List.mem_cons_self i L')
    have hsome : ∀ r ∈ windowAt games w i, r.stored.isSome = true :=
      fun r hr => hp r (windowAt_subset hr)
    have htail := ih (fun j hj => hL j (List.mem_cons_of_mem i hj))
    by_cases hcond : ((windowAt games w i).map storedD).length = w ∧
        arityOk ((windowAt games w i).map storedD)
    · have hw0 : 0 < w := by
        obtain ⟨hlen, har⟩ := hcond
        cases hmap : (windowAt games w i).map storedD with
        | nil => rw [hmap] at har; cases har
        | cons a t => rw [hmap] at hlen; simp at hlen; omega
      rw [List.filterMap_cons_some (by rw [if_pos hcond]),
        seqLoop_cons_some (parseWindow_all_some hsome), if_pos hcond, htail,
        windowAt_getLast? hw0 (by omega) hi2]
      rfl
    · rw [List.filterMap_cons_none (by rw [if_neg hcond]),
        seqLoop_cons_some (parseWindow_all_some hsome), if_neg hcond, htail]

theorem build_sequences_eq_map {games : List FeatRow} {w k : Nat} (hw : 0 < w)
    (hp : ∀ r ∈ games, r.stored.map List.length = some k)
    (hwn : w ≤ games.length) :
    build_sequences_for_team games w =
      ((List.range games.length).drop (w - 1)).map
        (fun i => ((games.getD i r0).gid, (windowAt games w i).map storedD)) := by
  unfold build_sequences_for_team
  rw [if_neg (by omega)]
  exact seqLoop_eq_map hw hp _ (fun i hi => by
    obtain ⟨h1, h2⟩ := mem_drop_range hi
    exact ⟨by omega, h2⟩)

theorem buildAll_fold_count (w : Nat) (teams : List (List FeatRow)) :
    ∀ acc : Nat × Nat × Nat,
      (teams.foldl (buildAllStep w) acc).2.1 + (teams.foldl (buildAllStep w) acc).2.2
        = acc.2.1 + acc.2.2 + teams.length := by
  induction teams with
  | nil => intro acc; simp
  | cons t ts ih =>
    intro acc
    rw [List.foldl_cons, ih (buildAllStep w acc t)]
    unfold buildAllStep
    split <;> simp <;> omega

/-! Claim C2. -/

/-- C2: for a team whose ordered list has N rows, all parseable with one
shared arity: if N < window_size nothing is emitted (and no error); if
N >= window_size exactly N - window_size + 1 sequences are emitted, each of
length window_size, keyed by the terminal games (the rows from position
window_size - 1 on, whose (date, id) order ascends when the input does). -/
theorem build_sequences_count (games : List FeatRow) (w k : Nat)
    (hw : 0 < w)
    (hp : ∀ r ∈ games, r.stored.map List.length = some k)
    (hsorted : games.Pairwise rowLt) :
    (games.length < w → build_sequences_for_team games w = []) ∧
    (w ≤ games.length →
      (build_sequences_for_team games w).length = games.length - w + 1 ∧
      (∀ p ∈ build_sequences_for_team games w, p.2.length = w) ∧
      (build_sequences_for_team games w).map Prod.fst =
        (games.drop (w - 1)).map FeatRow.gid ∧
      (games.drop (w - 1)).Pairwise rowLt) := by
  constructor
  · intro hlt
    unfold build_sequences_for_team
    rw [if_pos hlt]
  · intro hwn
    rw [build_sequences_eq_map hw hp hwn]
    refine ⟨?_, ?_, ?_, hsorted.sublist (List.drop_sublist _ _)⟩
    · rw [List.length_map, List.length_drop, List.length_range]
      omega
    · intro p hpmem
      obtain ⟨i, hi, rfl⟩ := List.mem_map.mp hpmem
      obtain ⟨h1, h2⟩ := mem_drop_range hi
      simp only [List.length_map]
      exact windowAt_length (by omega) h2
    · rw [List.map_map]
      apply List.ext_getElem?
      intro j
      rw [List.getElem?_map, List.getElem?_map, List.getElem?_drop, List.getElem?_drop]
      by_cases hjn : w - 1 + j < games.length
      · rw [List.getElem?_range (by simpa [List.length_range] using hjn),
          List.getElem?_eq_getElem hjn]
        simp only [Option.map_some', Function.comp_apply]
        rw [List.getD_eq_getElem _ _ hjn]
      · rw [List.getElem?_eq_none (by simp [List.length_range]; omega),
          List.getElem?_eq_none (by omega)]
        rfl

theorem build_sequences_count_witness :
    (build_sequences_for_team games3 2).length = games3.length - 2 + 1 ∧
    (build_sequences_for_team games3 2).map Prod.fst =
      (games3.drop 1).map FeatRow.gid := by
  have h := (build_sequences_count games3 2 1 (by norm_num) (by decide)
    (by decide)).2 (by decide)
  exact ⟨h.1, h.2.2.1⟩

/-! Claim C5. -/

/-- C5: every emitted pair is keyed by the game at some position i (with a
full window available), its sequence is the parse of the window_size
consecutive rows ending at position i inclusive, and the terminal game's
own stored vector is the last element of the stored sequence. -/
theorem emitted_window_terminal (games : List FeatRow) (w : Nat)
    (p : Nat × List (List ℚ)) (hp : p ∈ build_sequences_for_team games w) :
    ∃ i, w ≤ i + 1 ∧ i < games.length ∧
      p.1 = (games.getD i r0).gid ∧ p.2.length = w ∧
      parseWindow (windowAt games w i) = some p.2 ∧
      p.2.getLast? = (games.getD i r0).stored := by
  unfold build_sequences_for_team at hp
  split at hp
  · cases hp
  · obtain ⟨i, hiL, hparse, hlen, har, hkey⟩ := seqLoop_mem hp
    obtain ⟨h1, h2⟩ := mem_drop_range hiL
    have hw0 : 0 < w := by
      cases hs : p.2 with
      | nil => rw [hs] at har; cases har
      | cons a t => rw [hs] at hlen; simp at hlen; omega
    have hw1 : w ≤ i + 1 := by omega
    have hlast := windowAt_getLast? hw0 hw1 h2
    refine ⟨i, hw1, h2, ?_, hlen, hparse, parseWindow_getLast hparse hlast⟩
    rw [hkey, hlast]
    rfl

theorem emitted_window_terminal_witness :
    ∃ i, 2 ≤ i + 1 ∧ i < games3.length ∧
      (((2 : Nat), ([[5], [6]] : List (List ℚ))) : Nat × List (List ℚ)).1 =
        (games3.getD i r0).gid ∧
      (((2 : Nat), ([[5], [6]] : List (List ℚ))) : Nat × List (List ℚ)).2.length = 2 ∧
      parseWindow (windowAt games3 2 i) =
        some (((2 : Nat), ([[5], [6]] : List (List ℚ))) : Nat × List (List ℚ)).2 ∧
      (((2 : Nat), ([[5], [6]] : List (List ℚ))) : Nat × List (List ℚ)).2.getLast? =
        (games3.getD i r0).stored :=
  emitted_window_terminal games3 2 (2, [[5], [6]]) (by decide)

/-! Claim C7. -/

/-- C7 (amended): when every stored vector of the team parses, the output is
exactly the windows whose members share one arity, independently filtered
position by position (so an arity mismatch skips just its own window); and
the team loop of build_all_sequences always processes every team. The
original claim's further assertion — that an unparseable stored vector also
skips only its own window — is false; see the counterexample. -/
theorem window_errors_confined (games : List FeatRow) (w : Nat)
    (teams : List (List FeatRow))
    (hp : ∀ r ∈ games, r.stored.isSome = true) :
    build_sequences_for_team games w =
      ((List.range games.length).drop (w - 1)).filterMap (fun i =>
        if ((windowAt games w i).map storedD).length = w ∧
            arityOk ((windowAt games w i).map storedD) then
          some ((games.getD i r0).gid, (windowAt games w i).map storedD)
        else none) ∧
    (build_all_sequences teams w).2.1 + (build_all_sequences teams w).2.2 =
      teams.length := by
  constructor
  · unfold build_sequences_for_team
    by_cases hlt : games.length < w
    · rw [if_pos hlt, List.drop_eq_nil_of_le (by simp [List.length_range]; omega)]
      rfl
    · rw [if_neg hlt]
      exact seqLoop_eq_filterMap hp _ (fun i hi => mem_drop_range hi)
  · have h := buildAll_fold_count w teams (0, 0, 0)
    unfold build_all_sequences
    simp only [Prod.snd, Prod.fst] at h
    omega

/-- C7 counterexample: the first row's stored vector is unparseable, the
second row's parses; with window_size 1 the second row's window is emitted
when it is processed alone, but in the two-row run the parse failure at the
first window aborts the whole run — the remaining window is lost, against
the claim that a per-item failure never aborts the team's remaining
windows. -/
theorem unparseable_aborts_run_counterexample :
    build_sequences_for_team [rBad, rGood] 1 = [] ∧
    build_sequences_for_team [rGood] 1 = [(2, [[1]])] := by
  constructor <;> decide

theorem window_errors_confined_witness :
    build_sequences_for_team games3 2 =
      ((List.range games3.length).drop (2 - 1)).filterMap (fun i =>
        if ((windowAt games3 2 i).map storedD).length = 2 ∧
            arityOk ((windowAt games3 2 i).map storedD) then
          some ((games3.getD i r0).gid, (windowAt games3 2 i).map storedD)
        else none) ∧
    (build_all_sequences [games3] 2).2.1 + (build_all_sequences [games3] 2).2.2 =
      ([games3] : List (List FeatRow)).length :=
  window_errors_confined games3 2 [games3] (by decide)

/-! Dataset-builder helper lemmas. -/

theorem ite_one_zero_eq_one_nat (p : Prop) [Decidable p] :
    ((if p then (1 : Nat) else 0) = 1) ↔ p := by
  by_cases h : p <;> simp [h]

theorem buildLoop_nil (store : SeqStore) (acc : List MatchupSample × SkipCounters) :
    buildLoop store [] acc = acc := rfl

theorem buildLoop_cons (store : SeqStore) (g : GameRow) (rest : List GameRow)
    (acc : List MatchupSample × SkipCounters) :
    buildLoop store (g :: rest) acc = buildLoop store rest (matchupStep store acc g) := rfl

theorem matchupStep_fst (store : SeqStore) (acc : List MatchupSample × SkipCounters)
    (g : GameRow) :
    (matchupStep store acc g).1 = acc.1 ∨
    ∃ s : MatchupSample, (matchupStep store acc g).1 = acc.1 ++ [s] ∧
      s.winA = (if s.scoreA > s.scoreB then 1 else 0) ∧
      s.sequenceA.length = s.sequenceB.length ∧ s.sequenceA ≠ [] := by
  unfold matchupStep
  cases load_sequence store g.home_team_id g.game_id with
  | none => exact Or.inl rfl
  | some hs =>
    cases load_sequence store g.away_team_id g.game_id with
    | none => exact Or.inl rfl
    | some aw =>
      dsimp only
      by_cases h0 : hs.length = 0 ∨ aw.length = 0
      · rw [if_pos h0]
        exact Or.inl rfl
      · rw [if_neg h0]
        by_cases hne : hs.length ≠ aw.length
        · rw [if_pos hne]
          exact Or.inl rfl
        · rw [if_neg hne]
          refine Or.inr ⟨_, rfl, rfl, not_not.mp hne, ?_⟩
          intro hnil
          have hhs : hs = [] := hnil
          exact h0 (Or.inl (by rw [hhs]; rfl))

theorem buildLoop_mem (store : SeqStore) :
    ∀ (games : List GameRow) (acc : List MatchupSample × SkipCounters)
      (s : MatchupSample), s ∈ (buildLoop store games acc).1 →
      s ∈ acc.1 ∨
        (s.winA = (if s.scoreA > s.scoreB then 1 else 0) ∧
         s.sequenceA.length = s.sequenceB.length ∧ s.sequenceA ≠ []) := by
  intro games
  induction games with
  | nil => exact fun acc s h => Or.inl h
  | cons g rest ih =>
    intro acc s h
    rw [buildLoop_cons] at h
    rcases ih (matchupStep store acc g) s h with h' | h'
    · rcases matchupStep_fst store acc g with heq | ⟨t, heq, hprops⟩
      · rw [heq] at h'
        exact Or.inl h'
      · rw [heq] at h'
        rcases List.mem_append.mp h' with h2 | h2
        · exact Or.inl h2
        · obtain rfl : s = t := by simpa using h2
          exact Or.inr hprops
    · exact Or.inr h'

theorem matchupStep_count (store : SeqStore) (acc : List MatchupSample × SkipCounters)
    (g : GameRow) :
    (matchupStep store acc g).1.length + (matchupStep store acc g).2.no_home_sequence
      + (matchupStep store acc g).2.no_away_sequence
      + (matchupStep store acc g).2.invalid_sequence
    = acc.1.length + acc.2.no_home_sequence + acc.2.no_away_sequence
      + acc.2.invalid_sequence + 1 := by
  unfold matchupStep
  cases load_sequence store g.home_team_id g.game_id with
  | none => simp; omega
  | some hs =>
    cases load_sequence store g.away_team_id g.game_id with
    | none => simp; omega
    | some aw =>
      dsimp only
      by_cases h0 : hs.length = 0 ∨ aw.length = 0
      · rw [if_pos h0]
        simp
        omega
      · rw [if_neg h0]
        by_cases hne : hs.length ≠ aw.length
        · rw [if_pos hne]
          simp
          omega
        · rw [if_neg hne]
          simp
          omega

theorem buildLoop_count (store : SeqStore) :
    ∀ (games : List GameRow) (acc : List MatchupSample × SkipCounters),
      (buildLoop store games acc).1.length
        + (buildLoop store games acc).2.no_home_sequence
        + (buildLoop store games acc).2.no_away_sequence
        + (buildLoop store games acc).2.invalid_sequence
      = acc.1.length + acc.2.no_home_sequence + acc.2.no_away_sequence
        + acc.2.invalid_sequence + games.length := by
  intro games
  induction games with
  | nil => intro acc; simp [buildLoop_nil]
  | cons g rest ih =>
    intro acc
    rw [buildLoop_cons, ih (matchupStep store acc g)]
    have h := matchupStep_count store acc g
    simp
    omega

theorem buildLoop_eq_foldl (store : SeqStore) :
    ∀ (games : List GameRow) (acc : List MatchupSample × SkipCounters),
      buildLoop store games acc = games.foldl (matchupStep store) acc := by
  intro games
  induction games with
  | nil => exact fun acc => rfl
  | cons g rest ih =>
    intro acc
    rw [buildLoop_cons, List.foldl_cons, ih]

/-! Claim C1. -/

/-- C1: every MatchupSample emitted by build_matchup_samples has winA = 1
iff the stored home final score strictly exceeds the stored away final
score; equal scores give winA = 0. -/
theorem winA_label_law (games : List GameRow) (store : SeqStore)
    (s : MatchupSample) (hs : s ∈ (build_matchup_samples games store).1) :
    (s.winA = 1 ↔ s.scoreA > s.scoreB) ∧ (s.scoreA = s.scoreB → s.winA = 0) := by
  rcases buildLoop_mem store games ([], ⟨0, 0, 0⟩) s hs with h | ⟨hw, -, -⟩
  · cases h
  · constructor
    · rw [hw, ite_one_zero_eq_one_nat]
    · intro heq
      rw [hw, if_neg (by omega)]

theorem winA_label_law_witness :
    (sX.winA = 1 ↔ sX.scoreA > sX.scoreB) ∧ (sX.scoreA = sX.scoreB → sX.winA = 0) :=
  winA_label_law [gameX] storeX sX (by decide)

/-! Claim C3. -/

/-- C3 (amended): every emitted MatchupSample's two sequences share the same
window length (and are 2-D, i.e. nonempty); and every input game is either
emitted or counted under exactly one skip reason, so samples + no_home +
no_away + invalid = number of games. Identical per-timestep arity across
the two sequences is NOT guaranteed: only shape[0] is compared; see the
counterexample. -/
theorem shape_law (games : List GameRow) (store : SeqStore)
    (s : MatchupSample) (hs : s ∈ (build_matchup_samples games store).1) :
    s.sequenceA.length = s.sequenceB.length ∧ s.sequenceA ≠ [] ∧
    (build_matchup_samples games store).1.length
      + (build_matchup_samples games store).2.no_home_sequence
      + (build_matchup_samples games store).2.no_away_sequence
      + (build_matchup_samples games store).2.invalid_sequence = games.length := by
  rcases buildLoop_mem store games ([], ⟨0, 0, 0⟩) s hs with h | ⟨-, hl, hn⟩
  · cases h
  · refine ⟨hl, hn, ?_⟩
    have h := buildLoop_count store games ([], ⟨0, 0, 0⟩)
    simpa using h

/-- C3 counterexample: for gameX, the stored home sequence [[1, 2]] has
per-timestep arity 2 and the away sequence [[1]] arity 1; both have window
length 1, so the sample is emitted (nothing is rejected or counted), with
the two sequences differing in per-timestep arity — against the claim. -/
theorem arity_mismatch_emitted_counterexample :
    build_matchup_samples [gameX] storeX = ([sX], ⟨0, 0, 0⟩) ∧
    sX.sequenceA.length = sX.sequenceB.length ∧
    sX.sequenceA.map List.length = [2] ∧ sX.sequenceB.map List.length = [1] := by
  exact ⟨by decide, rfl, by decide, by decide⟩

theorem shape_law_witness :
    sX.sequenceA.length = sX.sequenceB.length ∧ sX.sequenceA ≠ [] ∧
    (build_matchup_samples [gameX] storeX).1.length
      + (build_matchup_samples [gameX] storeX).2.no_home_sequence
      + (build_matchup_samples [gameX] storeX).2.no_away_sequence
      + (build_matchup_samples [gameX] storeX).2.invalid_sequence
      = ([gameX] : List GameRow).length :=
  shape_law [gameX] storeX sX (by decide)

/-! Claim C8. -/

/-- C8: build_matchup_samples is a pure left fold of the per-game step over
the row list with the accumulator as only state, and two runs over
identical stored games and sequences give identical sample lists and
identical skip counters. -/
theorem build_matchup_deterministic (games games2 : List GameRow)
    (store store2 : SeqStore) (hg : games = games2) (hst : store = store2) :
    build_matchup_samples games store =
      games.foldl (matchupStep store) ([], ⟨0, 0, 0⟩) ∧
    build_matchup_samples games store = build_matchup_samples games2 store2 := by
  subst hg hst
  exact ⟨buildLoop_eq_foldl store games ([], ⟨0, 0, 0⟩), rfl⟩

theorem build_matchup_deterministic_witness :
    build_matchup_samples [gameX] storeX =
      ([gameX] : List GameRow).foldl (matchupStep storeX) ([], ⟨0, 0, 0⟩) ∧
    build_matchup_samples [gameX] storeX = build_matchup_samples [gameX] storeX :=
  build_matchup_deterministic [gameX] [gameX] storeX storeX rfl rfl

end NbaPred
